import Mathlib

/-!
Shallow embedding of the decorator-pattern HTTP client pipeline from
src/decorator_pattern.go, together with theorems settling the specification
claims about it.

Modelling choices, all taken from the source:
* An `http.Request` travels through the whole pipeline by pointer and is
  mutated in place, so it is threaded inside an explicit `State` record
  together with the observable side effects (log records, metric calls,
  sleeps) and the shared mutable cells the closures capture (the
  round-robin counter, the seeded random source, a scratch counter used by
  test doubles for counting invocations).
* `Client` is `State → State × Result`, the `Do(*http.Request)
  (*http.Response, error)` contract with the pointer argument and all side
  effects made explicit; `Decorator` is `Client → Client`; `Director` is
  `State → State` (Go `func(*http.Request)`).
* Machine integers: the round-robin counter is a Go `uint64`, so every
  increment is taken modulo `2 ^ 64`; the `attempts` parameter of
  `FaultTolerance` is a signed Go `int`, modelled as `Int`.
* `time.Duration` values are modelled as `Int` nanoseconds.
-/

namespace GoDecorator

/-- A URL, reduced to the fields the program reads or writes: `Host`
(mutated by the load-balancing directors) plus the rest of the URL kept as
an opaque `path` string. -/
structure URL where
  host : String
  path : String
deriving DecidableEq, Repr

/-- An `http.Request`, reduced to the fields the program touches:
`Method`, `URL`, and the header collection.  The header collection is the
ordered list of (name, value) pairs that `Header.Add` has recorded;
`http.Header.Add` appends a pair and never removes one. -/
structure Request where
  method : String
  url : URL
  header : List (String × String)
deriving DecidableEq, Repr

/-- Go `http.Header.Get`: the first value recorded for the key, or the
empty string when the key is absent. -/
def headerGet (h : List (String × String)) (key : String) : String :=
  match h.find? (fun p => p.1 == key) with
  | some p => p.2
  | none => ""

/-- Go `(*http.Request).UserAgent()`: the value of the "User-Agent"
header.  Note that this is a *method* on the request, not a field. -/
def Request.userAgent (r : Request) : String := headerGet r.header "User-Agent"

/-- An `*http.Response`; its contents are opaque to the pipeline. -/
structure Response where
  body : String
deriving DecidableEq, Repr

/-- The `(res *http.Response, err error)` pair every `Client.Do` returns.
`none` models a nil pointer / nil error. -/
structure Result where
  resp : Option Response
  err : Option String
deriving DecidableEq, Repr

/-- An argument passed to `log.Logger.Printf`.  `methodVal name` records
that the code passed a *method value* (an uncalled function such as
`r.UserAgent`) rather than the string the method would return: Go `fmt`
renders such an argument under the verb `%s` as a
`%!s(func() string=0x...)` placeholder, never as that string. -/
inductive FmtArg where
  | str (s : String)
  | methodVal (name : String)
  | urlVal (u : URL)
deriving DecidableEq, Repr

/-- One observable effect of a pipeline invocation. -/
inductive Event where
  /-- A record written to the logger named `sink` via `Printf`. -/
  | logRecord (sink fmt : String) (args : List FmtArg)
  /-- `Histogram.Observe` on the histogram named `hist`. -/
  | observe (hist : String) (ns : Int)
  /-- `Counter.Add` on the counter named `ctr`. -/
  | add (ctr : String) (n : Int)
  /-- `time.Sleep` for `ns` nanoseconds. -/
  | sleep (ns : Int)
  /-- A free-form marker emitted by a test double. -/
  | tag (s : String)
deriving DecidableEq, Repr

/-- The mutable world one pipeline invocation threads along: the request
(which Go passes by pointer), the trace of observable effects, a wall
clock in nanoseconds, the shared `uint64` counter captured by `RoundRobin`,
the seeded random source captured by `Random` (a stream of draws plus a
position), and a scratch counter `aux` used by test-double clients to
count their invocations. -/
structure State where
  req : Request
  trace : List Event
  clock : Int
  robin : Nat
  rngStream : Nat → Nat
  rngIdx : Nat
  aux : Nat

/-- Append one observable event to the trace. -/
def emit (s : State) (e : Event) : State := { s with trace := s.trace ++ [e] }

/-- `time.Sleep`: records the sleep and advances the wall clock. -/
def timeSleep (d : Int) (s : State) : State :=
  { s with trace := s.trace ++ [Event.sleep d], clock := s.clock + d }

/-- The `Client` interface: `Do(*http.Request) (*http.Response, error)`,
with the pointed-to request and the side effects carried in `State`. -/
abbrev Client := State → State × Result

/-- `type Decorator func(Client) Client`. -/
abbrev Decorator := Client → Client

/-- `type Director func(*http.Request)`: a pure side effect on the
request (and on the strategy's own captured state). -/
abbrev Director := State → State

/-- `Logging(l)`: before delegating, executes
`l.Printf("%s: %s %s", r.UserAgent, r.Method, r.URL)`.  The first
argument is the method value `r.UserAgent` — the method is not called —
so the record carries `FmtArg.methodVal "UserAgent"`, not the user-agent
string.  `l` names the logger sink. -/
def Logging (l : String) : Decorator := fun c s =>
  c (emit s (Event.logRecord l "%s: %s %s"
      [FmtArg.methodVal "UserAgent", FmtArg.str s.req.method, FmtArg.urlVal s.req.url]))

/-- `Instrumentation(requests, latency)`: delegates, and a deferred
function then observes the elapsed wall-clock time into the `latency`
histogram and adds 1 to the `requests` counter — in that order, on every
return of the delegated call. -/
def Instrumentation (requests latency : String) : Decorator := fun c s =>
  let start := s.clock
  let out := c s
  (emit (emit out.1 (Event.observe latency (out.1.clock - start))) (Event.add requests 1),
   out.2)

/-- The retry loop of `FaultTolerance`
(`for i := 0; i <= attempts; i++ { if res, err = c.Do(r); err == nil { break }; time.Sleep(backoff * time.Duration(i)) }`):
`fuel` is the number of loop iterations the bound still allows
(`attempts + 1` at entry), `i` is the Go loop index, and `acc` holds the
named return values `(res, err)` accumulated so far (zero values
`(nil, nil)` at entry). -/
def ftRun (c : Client) (backoff : Int) : Nat → Nat → Result → State → State × Result
  | 0, _, acc, s => (s, acc)
  | fuel + 1, i, _, s =>
    let out := c s
    if out.2.err = none then out
    else ftRun c backoff fuel (i + 1) out.2 (timeSleep (backoff * (i : Int)) out.1)

/-- `FaultTolerance(attempts, backoff)`.  `attempts` keeps Go's signed
`int`: a negative value admits zero loop iterations, in which case the
zero values `(nil, nil)` are returned. -/
def FaultTolerance (attempts backoff : Int) : Decorator := fun c s =>
  ftRun c backoff (attempts + 1).toNat 0 ⟨none, none⟩ s

/-- `Header(name, value)`: `r.Header.Add(name, value)` — append the pair
to the request's header collection — then delegate. -/
def Header (name value : String) : Decorator := fun c s =>
  c { s with req := { s.req with header := s.req.header ++ [(name, value)] } }

/-- `Authorization(token) = Header("Authorization", token)`. -/
def Authorization (token : String) : Decorator := Header "Authorization" token

/-- `LoadBalancing(dir)`: run the director on the request, then delegate. -/
def LoadBalancing (dir : Director) : Decorator := fun c s => c (dir s)

/-- `RoundRobin(robin, backends...)`: when the backend list is non-empty,
atomically increment the shared `uint64` counter (hence modulo `2 ^ 64`)
and set the request's host to `backends[counter % len(backends)]`.  The
constructor's initial-counter parameter is the entry value of the
`State.robin` cell. -/
def RoundRobin (backends : List String) : Director := fun s =>
  if 0 < backends.length then
    let robin := (s.robin + 1) % 2 ^ 64
    { s with robin := robin,
             req := { s.req with url := { s.req.url with
               host := backends.getD (robin % backends.length) "" } } }
  else s

/-- `Random(seed, backends...)`: when the backend list is non-empty, draw
`rnd.Intn(len(backends))` from the seeded generator — modelled as the
next value of the captured stream reduced modulo the length — and set the
request's host to that backend. -/
def Random (backends : List String) : Director := fun s =>
  if 0 < backends.length then
    { s with rngIdx := s.rngIdx + 1,
             req := { s.req with url := { s.req.url with
               host := backends.getD (s.rngStream s.rngIdx % backends.length) "" } } }
  else s

/-- `Decorate(c, ds...)`:
`decorated := c; for _, decorate := range ds { decorated = decorate(decorated) }; return decorated`. -/
def Decorate (c : Client) (ds : List Decorator) : Client :=
  ds.foldl (fun decorated d => d decorated) c

/-! ## Test doubles and concrete data used by the claims -/

/-- Test double: a base client that fails on its first `k` invocations and
succeeds from invocation `k + 1` on; `State.aux` counts its invocations
and every invocation leaves a marker in the trace. -/
def failNTimes (k : Nat) : Client := fun s =>
  ({ s with aux := s.aux + 1, trace := s.trace ++ [Event.tag "attempt"] },
   if s.aux < k then ⟨none, some "boom"⟩ else ⟨some ⟨"ok"⟩, none⟩)

/-- Test double: a base client recording one marker and succeeding. -/
def recBase (name : String) : Client := fun s =>
  (emit s (Event.tag name), ⟨some ⟨"ok"⟩, none⟩)

/-- Test double: a decorator recording a `pre` marker before delegating
and a `post` marker after. -/
def recDecorator (pre post : String) : Decorator := fun c s =>
  let out := c (emit s (Event.tag pre))
  (emit out.1 (Event.tag post), out.2)

/-- Test double: a base client that always fails, touching nothing. -/
def alwaysFail : Client := fun s => (s, ⟨none, some "boom"⟩)

/-- Test double: a base client that always succeeds, touching nothing. -/
def okClient : Client := fun s => (s, ⟨some ⟨"ok"⟩, none⟩)

/-- A concrete request for witnesses: its user-agent is "test-agent". -/
def req0 : Request :=
  { method := "GET", url := { host := "example.com", path := "/x" },
    header := [("User-Agent", "test-agent")] }

/-- A concrete initial state for witnesses. -/
def s0 : State :=
  { req := req0, trace := [], clock := 0, robin := 0,
    rngStream := fun _ => 0, rngIdx := 0, aux := 0 }

/-- The event trace produced by `n` consecutive failing attempts of
`failNTimes` inside the retry loop, entered at loop index `i`: each failed
attempt is followed by a sleep of `backoff * i`. -/
def ftFailTrace (b : Int) : Nat → Nat → List Event
  | _, 0 => []
  | i, n + 1 =>
    Event.tag "attempt" :: Event.sleep (b * (i : Int)) :: ftFailTrace b (i + 1) n

/-- The sub-trace of sleep durations. -/
def sleepsOf (tr : List Event) : List Int :=
  tr.filterMap (fun e => match e with | Event.sleep d => some d | _ => none)

/-- The hosts selected by `n` successive invocations of a director. -/
def hostsSeq (d : Director) : Nat → State → List String
  | 0, _ => []
  | n + 1, s =>
    let s1 := d s
    s1.req.url.host :: hostsSeq d n s1

/-! ## Claim theorems -/

/-- C1: `Decorate` folds the decorator list over the base client in the
given order (`result = base`, then `result = d(result)` for each `d`), so
the last decorator is outermost: for `Decorate(base, [T1, T2])` an
invocation runs T2's pre-delegation logic, then T1's, then the base, then
T1's post-delegation logic, then T2's. -/
theorem Decorate_order (c : Client) (ds : List Decorator) (d T1 T2 : Decorator)
    (s : State) :
    Decorate c ds = ds.foldl (fun decorated t => t decorated) c ∧
    Decorate c (ds ++ [d]) = d (Decorate c ds) ∧
    Decorate c [T1, T2] = T2 (T1 c) ∧
    (Decorate (recBase "base")
        [recDecorator "pre1" "post1", recDecorator "pre2" "post2"] s).1.trace
      = s.trace ++ [Event.tag "pre2", Event.tag "pre1", Event.tag "base",
                    Event.tag "post1", Event.tag "post2"] := by
  refine ⟨rfl, ?_, rfl, ?_⟩
  · simp [Decorate]
  · simp [Decorate, recBase, recDecorator, emit]

/-- C4: `Instrumentation` performs `Histogram.Observe` (with the elapsed
wall-clock time) and then `Counter.Add 1`, each exactly once, after the
delegated call returns; this happens on every exit path, in particular
when the delegated call fails. -/
theorem Instrumentation_records_once (requests latency : String) (c : Client)
    (s : State) :
    (Instrumentation requests latency c s).1.trace
      = (c s).1.trace
          ++ [Event.observe latency ((c s).1.clock - s.clock), Event.add requests 1] ∧
    (Instrumentation requests latency c s).2 = (c s).2 ∧
    (Instrumentation requests latency alwaysFail s).1.trace
      = s.trace ++ [Event.observe latency 0, Event.add requests 1] ∧
    (Instrumentation requests latency alwaysFail s).2 = ⟨none, some "boom"⟩ := by
  refine ⟨?_, rfl, ?_, rfl⟩
  · simp [Instrumentation, emit]
  · simp [Instrumentation, emit, alwaysFail]

/-- C5: every transform other than `FaultTolerance` is a transparent
pass-through: it returns exactly the `(Response, Failure)` pair its
wrapped client produced, unchanged and unexamined, and a pipeline
composed of such transforms returns exactly what the innermost client
produced. -/
theorem transforms_pass_through (l n v tok requests latency : String) (c : Client)
    (dir : Director) (s : State) :
    Logging l c s
      = c (emit s (Event.logRecord l "%s: %s %s"
          [FmtArg.methodVal "UserAgent", FmtArg.str s.req.method,
           FmtArg.urlVal s.req.url])) ∧
    (Instrumentation requests latency c s).2 = (c s).2 ∧
    Header n v c s
      = c { s with req := { s.req with header := s.req.header ++ [(n, v)] } } ∧
    Authorization tok c s
      = c { s with req :=
          { s.req with header := s.req.header ++ [("Authorization", tok)] } } ∧
    LoadBalancing dir c s = c (dir s) ∧
    ∃ s1, (Decorate c [Header n v, LoadBalancing dir, Logging l,
        Instrumentation requests latency] s).2 = (c s1).2 :=
  ⟨rfl, rfl, rfl, rfl, rfl, ⟨_, rfl⟩⟩

/-- C7: with zero backends both directors are a defined no-op: they leave
the whole state — in particular the request's URL host — unchanged, never
produce a failure, and wrapping a client with them changes nothing. -/
theorem empty_backends_noop (s : State) (c : Client) :
    RoundRobin [] s = s ∧ Random [] s = s ∧
    (RoundRobin [] s).req.url.host = s.req.url.host ∧
    (Random [] s).req.url.host = s.req.url.host ∧
    LoadBalancing (RoundRobin []) c s = c s ∧
    LoadBalancing (Random []) c s = c s := by
  refine ⟨?_, ?_, ?_, ?_, ?_, ?_⟩ <;> simp [RoundRobin, Random, LoadBalancing]

/-- C9: `Header(name, value)` appends the pair to the request's header
collection before delegating and removes or overwrites nothing (the old
collection is kept verbatim as a prefix); two stacked `Header` transforms
accumulate additively, duplicates allowed; and `Authorization(token)` is
exactly `Header("Authorization", token)`. -/
theorem Header_appends (name value token n1 v1 n2 v2 : String) (c : Client)
    (s : State) :
    Header name value c s
      = c { s with req :=
          { s.req with header := s.req.header ++ [(name, value)] } } ∧
    Authorization token = Header "Authorization" token ∧
    Decorate c [Header n1 v1, Header n2 v2] s
      = c { s with req :=
          { s.req with header := s.req.header ++ [(n2, v2), (n1, v1)] } } := by
  refine ⟨rfl, rfl, ?_⟩
  simp [Decorate, Header]

/-- C10: for every negative `attempts` the retry loop of
`FaultTolerance` admits zero iterations, so the wrapped client is never
invoked (the state, trace included, is returned untouched whatever the
client is) and the zero values `(nil, nil)` are returned — neither a
response nor a failure, violating the Sender contract. -/
theorem FT_negative_attempts_nil (attempts backoff : Int) (c : Client) (s : State)
    (h : attempts < 0) :
    FaultTolerance attempts backoff c s = (s, ⟨none, none⟩) ∧
    (FaultTolerance attempts backoff c s).2.resp = none ∧
    (FaultTolerance attempts backoff c s).2.err = none := by
  have h0 : (attempts + 1).toNat = 0 := by omega
  have he : FaultTolerance attempts backoff c s = (s, ⟨none, none⟩) := by
    show ftRun c backoff (attempts + 1).toNat 0 ⟨none, none⟩ s = (s, ⟨none, none⟩)
    rw [h0, ftRun]
  exact ⟨he, by rw [he], by rw [he]⟩

/-- Witness for C10 at `attempts = -1`. -/
theorem FT_negative_attempts_nil_witness :
    FaultTolerance (-1) 3 okClient s0 = (s0, ⟨none, none⟩) ∧
    (FaultTolerance (-1) 3 okClient s0).2.resp = none ∧
    (FaultTolerance (-1) 3 okClient s0).2.err = none :=
  FT_negative_attempts_nil (-1) 3 okClient s0 (by decide)

/-- C6 (code bug): the log record `Logging` emits passes the *method
value* `r.UserAgent` to `Printf` instead of calling it, so the emitted
record carries a function-value placeholder and never the request's
user-agent string ("test-agent" here), although it does carry the method
and the URL. -/
theorem Logging_user_agent_bug :
    (Logging "client" okClient s0).1.trace
      = [Event.logRecord "client" "%s: %s %s"
          [FmtArg.methodVal "UserAgent", FmtArg.str "GET",
           FmtArg.urlVal { host := "example.com", path := "/x" }]] ∧
    Request.userAgent req0 = "test-agent" ∧
    FmtArg.str (Request.userAgent req0)
      ∉ [FmtArg.methodVal "UserAgent", FmtArg.str "GET",
         FmtArg.urlVal { host := "example.com", path := "/x" }] := by
  refine ⟨rfl, by decide, by decide⟩

/-! ## The retry loop on the canonical fail-then-succeed client -/

/-- Helper: one failing iteration of the retry loop on `failNTimes k`
records the attempt marker and the sleep `backoff * i`, bumps the
invocation counter, and recurses with the observed failure. -/
theorem ftRun_fail_step (k : Nat) (b : Int) (fuel i : Nat) (acc : Result)
    (s : State) (hk : s.aux < k) :
    ftRun (failNTimes k) b (fuel + 1) i acc s
      = ftRun (failNTimes k) b fuel (i + 1) ⟨none, some "boom"⟩
          { s with aux := s.aux + 1,
                   trace := s.trace
                     ++ [Event.tag "attempt", Event.sleep (b * (i : Int))],
                   clock := s.clock + b * (i : Int) } := by
  rw [ftRun]
  simp [failNTimes, hk, timeSleep]

/-- Helper: one succeeding iteration of the retry loop on `failNTimes k`
records the attempt marker, bumps the invocation counter, and returns the
success immediately. -/
theorem ftRun_ok_step (k : Nat) (b : Int) (fuel i : Nat) (acc : Result)
    (s : State) (hk : ¬ s.aux < k) :
    ftRun (failNTimes k) b (fuel + 1) i acc s
      = ({ s with aux := s.aux + 1, trace := s.trace ++ [Event.tag "attempt"] },
         ⟨some ⟨"ok"⟩, none⟩) := by
  rw [ftRun]
  simp [failNTimes, hk]

theorem ftRun_succeeds (k : Nat) (b : Int) :
    ∀ fuel i (acc : Result) (s : State), s.aux = i → i ≤ k → k < i + fuel →
      (ftRun (failNTimes k) b fuel i acc s).2 = ⟨some ⟨"ok"⟩, none⟩ ∧
      (ftRun (failNTimes k) b fuel i acc s).1.aux = k + 1 ∧
      (ftRun (failNTimes k) b fuel i acc s).1.trace
        = s.trace ++ ftFailTrace b i (k - i) ++ [Event.tag "attempt"] := by
  intro fuel
  induction fuel with
  | zero => intro i acc s h1 h2 h3; omega
  | succ f ih =>
    intro i acc s haux hik hbud
    subst haux
    by_cases hk : s.aux < k
    · rw [ftRun_fail_step k b f s.aux acc s hk]
      have step := ih (s.aux + 1) ⟨none, some "boom"⟩
        { s with aux := s.aux + 1,
                 trace := s.trace
                   ++ [Event.tag "attempt", Event.sleep (b * (s.aux : Int))],
                 clock := s.clock + b * (s.aux : Int) }
        rfl (by omega) (by omega)
      refine ⟨step.1, step.2.1, ?_⟩
      rw [step.2.2]
      obtain ⟨n, hn⟩ : ∃ n, k - s.aux = n + 1 := ⟨k - s.aux - 1, by omega⟩
      have hn1 : k - (s.aux + 1) = n := by omega
      rw [hn1, hn]
      simp [ftFailTrace]
    · rw [ftRun_ok_step k b f s.aux acc s hk]
      have hka : k - s.aux = 0 := by omega
      have hka2 : s.aux + 1 = k + 1 := by omega
      simp [hka, hka2, ftFailTrace]

/-- Helper: entered at loop index `i` with the invocation counter equal to
`i`, a budget of `m + 1` further iterations that all fail (because
`i + m + 1 ≤ k`) ends with the last failure returned, `i + m + 1` total
invocations, and a sleep of `backoff * j` after every failed attempt `j`,
the final one included. -/
theorem ftRun_fails (k : Nat) (b : Int) :
    ∀ m i (acc : Result) (s : State), s.aux = i → i + m + 1 ≤ k →
      (ftRun (failNTimes k) b (m + 1) i acc s).2 = ⟨none, some "boom"⟩ ∧
      (ftRun (failNTimes k) b (m + 1) i acc s).1.aux = i + m + 1 ∧
      (ftRun (failNTimes k) b (m + 1) i acc s).1.trace
        = s.trace ++ ftFailTrace b i (m + 1) := by
  intro m
  induction m with
  | zero =>
    intro i acc s haux hik
    subst haux
    have hk : s.aux < k := by omega
    rw [ftRun_fail_step k b 0 s.aux acc s hk, ftRun]
    simp [ftFailTrace]
  | succ f ih =>
    intro i acc s haux hik
    subst haux
    have hk : s.aux < k := by omega
    rw [ftRun_fail_step k b (f + 1) s.aux acc s hk]
    have step := ih (s.aux + 1) ⟨none, some "boom"⟩
      { s with aux := s.aux + 1,
               trace := s.trace
                 ++ [Event.tag "attempt", Event.sleep (b * (s.aux : Int))],
               clock := s.clock + b * (s.aux : Int) }
      rfl (by omega)
    refine ⟨step.1, ?_, ?_⟩
    · rw [step.2.1]; omega
    · rw [step.2.2]
      simp [ftFailTrace]

/-- C2 (amended): on a base client that fails its first `k` invocations
and then succeeds, `FaultTolerance(attempts, backoff)` with
`k ≤ attempts` returns the success after exactly `k + 1` invocations of
the base; with `0 ≤ attempts < k` it invokes the base exactly
`attempts + 1` times and returns the failure observed on the last
invocation.  (For `attempts < 0` the base is never invoked and `(nil,
nil)` is returned, so the second case needs `0 ≤ attempts`.) -/
theorem FT_attempts_budget (k : Nat) (attempts backoff : Int) (s : State)
    (haux : s.aux = 0) :
    ((k : Int) ≤ attempts →
      (FaultTolerance attempts backoff (failNTimes k) s).2 = ⟨some ⟨"ok"⟩, none⟩ ∧
      (FaultTolerance attempts backoff (failNTimes k) s).1.aux = k + 1) ∧
    (0 ≤ attempts → attempts < (k : Int) →
      (FaultTolerance attempts backoff (failNTimes k) s).2 = ⟨none, some "boom"⟩ ∧
      (FaultTolerance attempts backoff (failNTimes k) s).1.aux
        = attempts.toNat + 1) := by
  constructor
  · intro hk
    have h :=
      ftRun_succeeds k backoff (attempts + 1).toNat 0 ⟨none, none⟩ s haux
        (Nat.zero_le k) (by omega)
    exact ⟨h.1, h.2.1⟩
  · intro h0 hk
    have ht : (attempts + 1).toNat = attempts.toNat + 1 := by omega
    have h :=
      ftRun_fails k backoff attempts.toNat 0 ⟨none, none⟩ s haux (by omega)
    have he : FaultTolerance attempts backoff (failNTimes k) s
        = ftRun (failNTimes k) backoff (attempts.toNat + 1) 0 ⟨none, none⟩ s := by
      show ftRun (failNTimes k) backoff (attempts + 1).toNat 0 ⟨none, none⟩ s = _
      rw [ht]
    rw [he]
    exact ⟨h.1, by rw [h.2.1]; omega⟩

/-- Witness for C2 (amended): `k = 1, attempts = 2` succeeds after 2
invocations; `k = 3, attempts = 1` fails after 2 invocations. -/
theorem FT_attempts_budget_witness :
    ((FaultTolerance 2 5 (failNTimes 1) s0).2 = ⟨some ⟨"ok"⟩, none⟩ ∧
     (FaultTolerance 2 5 (failNTimes 1) s0).1.aux = 2) ∧
    ((FaultTolerance 1 5 (failNTimes 3) s0).2 = ⟨none, some "boom"⟩ ∧
     (FaultTolerance 1 5 (failNTimes 3) s0).1.aux = 2) :=
  ⟨(FT_attempts_budget 1 2 5 s0 rfl).1 (by decide),
   (FT_attempts_budget 3 1 5 s0 rfl).2 (by decide) (by decide)⟩

/-- C2 counterexample to the claim as stated: at `attempts = -1` and a
base client that fails its first invocation (`k = 1`), we are in the
claim's `attempts < k` case, yet the wrapped sender performs zero
invocations and returns no failure at all (`err = nil`), not "the failure
observed on the last invocation". -/
theorem FT_attempts_budget_cex :
    (-1 : Int) < ((1 : Nat) : Int) ∧
    (FaultTolerance (-1) 0 (failNTimes 1) s0).1.aux = 0 ∧
    (FaultTolerance (-1) 0 (failNTimes 1) s0).2.err = none := by
  refine ⟨by decide, ?_, ?_⟩ <;> rfl

theorem sleepsOf_append (t1 t2 : List Event) :
    sleepsOf (t1 ++ t2) = sleepsOf t1 ++ sleepsOf t2 := by
  simp [sleepsOf]

theorem sleepsOf_ftFailTrace (b : Int) :
    ∀ n i, sleepsOf (ftFailTrace b i n)
      = (List.range n).map (fun j => b * ((i + j : Nat) : Int)) := by
  intro n
  induction n with
  | zero => intro i; simp [ftFailTrace, sleepsOf]
  | succ m ih =>
    intro i
    rw [ftFailTrace]
    rw [List.range_succ_eq_map, List.map_cons, List.map_map]
    have tail := ih (i + 1)
    simp only [sleepsOf, List.filterMap_cons] at tail ⊢
    rw [tail]
    simp only [Nat.add_zero, List.cons.injEq, eq_self_iff_true]
    refine ⟨trivial, ?_⟩
    apply List.map_congr_left
    intro j _
    simp only [Function.comp_apply]
    congr 1
    omega

/-- C3 (amended): in `FaultTolerance(attempts, backoff)` with
`0 ≤ attempts`, a sleep of `backoff * i` is performed after each failed
attempt `i` (0-based, so the first retry is preceded by a zero-length
sleep), including after the final failed attempt when the budget is
exhausted: on a client failing its first `k` invocations the recorded
sleeps are `backoff * 0, ..., backoff * (k - 1)` when `k ≤ attempts`, and
`backoff * 0, ..., backoff * attempts` when `attempts < k`. -/
theorem FT_backoff_schedule (k : Nat) (attempts backoff : Int) (s : State)
    (haux : s.aux = 0) (h0 : 0 ≤ attempts) :
    ((k : Int) ≤ attempts →
      sleepsOf (FaultTolerance attempts backoff (failNTimes k) s).1.trace
        = sleepsOf s.trace ++ (List.range k).map (fun j : Nat => backoff * (j : Int))) ∧
    (attempts < (k : Int) →
      sleepsOf (FaultTolerance attempts backoff (failNTimes k) s).1.trace
        = sleepsOf s.trace
            ++ (List.range (attempts.toNat + 1)).map (fun j : Nat => backoff * (j : Int))) := by
  constructor
  · intro hk
    have h :=
      ftRun_succeeds k backoff (attempts + 1).toNat 0 ⟨none, none⟩ s haux
        (Nat.zero_le k) (by omega)
    have hrw : FaultTolerance attempts backoff (failNTimes k) s
        = ftRun (failNTimes k) backoff (attempts + 1).toNat 0 ⟨none, none⟩ s := rfl
    rw [hrw, h.2.2, sleepsOf_append, sleepsOf_append, sleepsOf_ftFailTrace]
    have h1 : sleepsOf [Event.tag "attempt"] = [] := rfl
    have h2 : (List.range (k - 0)).map (fun j => backoff * ((0 + j : Nat) : Int))
        = (List.range k).map (fun j : Nat => backoff * (j : Int)) := by
      apply List.map_congr_left
      intro j _
      norm_num
    rw [h1, h2]
    simp
  · intro hk
    have ht : (attempts + 1).toNat = attempts.toNat + 1 := by omega
    have h :=
      ftRun_fails k backoff attempts.toNat 0 ⟨none, none⟩ s haux (by omega)
    have hrw : FaultTolerance attempts backoff (failNTimes k) s
        = ftRun (failNTimes k) backoff (attempts.toNat + 1) 0 ⟨none, none⟩ s := by
      show ftRun (failNTimes k) backoff (attempts + 1).toNat 0 ⟨none, none⟩ s = _
      rw [ht]
    rw [hrw, h.2.2, sleepsOf_append, sleepsOf_ftFailTrace]
    have h2 : (List.range (attempts.toNat + 1)).map
          (fun j => backoff * ((0 + j : Nat) : Int))
        = (List.range (attempts.toNat + 1)).map (fun j : Nat => backoff * (j : Int)) := by
      apply List.map_congr_left
      intro j _
      norm_num
    rw [h2]

/-- Witness for C3 (amended): with `backoff = 7`, two failures then a
success under budget 3 sleeps `[0, 7]`; budget 1 against three failures
sleeps `[0, 7]` as well, the last sleep following the final attempt. -/
theorem FT_backoff_schedule_witness :
    ((2 : Nat) : Int) ≤ 3 ∧
    sleepsOf (FaultTolerance 3 7 (failNTimes 2) s0).1.trace
      = sleepsOf s0.trace ++ (List.range 2).map (fun j : Nat => 7 * (j : Int)) ∧
    sleepsOf (FaultTolerance 1 7 (failNTimes 3) s0).1.trace
      = sleepsOf s0.trace
          ++ (List.range ((1 : Int).toNat + 1)).map (fun j : Nat => 7 * (j : Int)) :=
  ⟨by decide,
   (FT_backoff_schedule 2 3 7 s0 rfl (by decide)).1 (by decide),
   (FT_backoff_schedule 3 1 7 s0 rfl (by decide)).2 (by decide)⟩

/-- C3 counterexample to the claim as stated: with `attempts = 1`,
`backoff = 7` and a client that always fails within the budget, the claim
predicts a single sleep of `backoff * 1 = 7` between the two attempts and
none after the final one; the code instead sleeps `backoff * 0 = 0`
before the first retry and sleeps `backoff * 1 = 7` *after* the final
failed attempt (the trace ends with a sleep). -/
theorem FT_backoff_schedule_cex :
    (FaultTolerance 1 7 (failNTimes 2) s0).1.trace
      = [Event.tag "attempt", Event.sleep 0, Event.tag "attempt", Event.sleep 7] ∧
    sleepsOf (FaultTolerance 1 7 (failNTimes 2) s0).1.trace = [0, 7] ∧
    ((FaultTolerance 1 7 (failNTimes 2) s0).1.trace).getLast? = some (Event.sleep 7) ∧
    sleepsOf (FaultTolerance 1 7 (failNTimes 2) s0).1.trace ≠ [7] := by
  refine ⟨rfl, rfl, rfl, by decide⟩

/-! ## Round-robin selection -/

/-- Helper: one invocation of a non-empty `RoundRobin` director increments
the shared counter modulo `2 ^ 64` and selects
`backends[counter % len(backends)]`. -/
theorem RoundRobin_step (backends : List String) (hbs : 0 < backends.length)
    (s : State) :
    (RoundRobin backends s).robin = (s.robin + 1) % 2 ^ 64 ∧
    (RoundRobin backends s).req.url.host
      = backends.getD ((s.robin + 1) % 2 ^ 64 % backends.length) "" := by
  simp [RoundRobin, hbs]

/-- Helper: as long as the `uint64` counter does not wrap around, `n`
successive round-robin selections starting from counter value `s.robin`
pick `backends[(s.robin + j + 1) % len]` at step `j`. -/
theorem hostsSeq_RoundRobin (backends : List String) (hbs : 0 < backends.length) :
    ∀ n (s : State), s.robin + n < 2 ^ 64 →
      hostsSeq (RoundRobin backends) n s
        = (List.range n).map
            (fun j : Nat => backends.getD ((s.robin + j + 1) % backends.length) "") := by
  intro n
  induction n with
  | zero => intro s hw; simp [hostsSeq]
  | succ m ih =>
    intro s hw
    have hmod : (s.robin + 1) % 2 ^ 64 = s.robin + 1 := Nat.mod_eq_of_lt (by omega)
    have hstep := RoundRobin_step backends hbs s
    have hs1robin : (RoundRobin backends s).robin = s.robin + 1 := by
      rw [hstep.1, hmod]
    have hs1host : (RoundRobin backends s).req.url.host
        = backends.getD ((s.robin + 1) % backends.length) "" := by
      rw [hstep.2, hmod]
    have tail := ih (RoundRobin backends s) (by rw [hs1robin]; omega)
    rw [hs1robin] at tail
    simp only [hostsSeq]
    rw [tail, hs1host, List.range_succ_eq_map, List.map_cons, List.map_map]
    refine List.cons_eq_cons.mpr ⟨by norm_num, ?_⟩
    apply List.map_congr_left
    intro j _
    simp only [Function.comp_apply]
    have harg : s.robin + 1 + j + 1 = s.robin + (j + 1) + 1 := by omega
    rw [harg]

set_option maxHeartbeats 1600000 in
/-- C8 (amended): a `RoundRobin` director over a 3-element backend list of
distinct hosts increments the counter on each invocation and selects
`backends[counter % 3]`; provided the `uint64` counter does not wrap
around during the window, 9 sequential invocations select each backend
exactly 3 times, and the selected sequence is deterministic and cyclic
with period 3.  (At a wraparound the `% 2 ^ 64` reduction repeats a
residue, so the claim needs the no-wraparound hypothesis.) -/
theorem RoundRobin_cycles (b0 b1 b2 : String) (s : State)
    (hw : s.robin + 9 < 2 ^ 64)
    (h01 : b0 ≠ b1) (h02 : b0 ≠ b2) (h12 : b1 ≠ b2) :
    ((RoundRobin [b0, b1, b2] s).robin = (s.robin + 1) % 2 ^ 64 ∧
     (RoundRobin [b0, b1, b2] s).req.url.host
       = [b0, b1, b2].getD ((s.robin + 1) % 2 ^ 64 % 3) "") ∧
    hostsSeq (RoundRobin [b0, b1, b2]) 9 s
      = (List.range 9).map
          (fun j : Nat => [b0, b1, b2].getD ((s.robin + j + 1) % 3) "") ∧
    (∀ i, i < 6 →
      (hostsSeq (RoundRobin [b0, b1, b2]) 9 s).getD (i + 3) ""
        = (hostsSeq (RoundRobin [b0, b1, b2]) 9 s).getD i "") ∧
    ((hostsSeq (RoundRobin [b0, b1, b2]) 9 s).count b0 = 3 ∧
     (hostsSeq (RoundRobin [b0, b1, b2]) 9 s).count b1 = 3 ∧
     (hostsSeq (RoundRobin [b0, b1, b2]) 9 s).count b2 = 3) := by
  have hbs : 0 < ([b0, b1, b2] : List String).length := by simp
  have hstep := RoundRobin_step [b0, b1, b2] hbs s
  have hhost3 : (RoundRobin [b0, b1, b2] s).req.url.host
      = [b0, b1, b2].getD ((s.robin + 1) % 2 ^ 64 % 3) "" := hstep.2
  have hmap0 : hostsSeq (RoundRobin [b0, b1, b2]) 9 s
      = (List.range 9).map
          (fun j : Nat => [b0, b1, b2].getD ((s.robin + j + 1) % 3) "") :=
    hostsSeq_RoundRobin [b0, b1, b2] hbs 9 s hw
  have hr : List.range 9 = [0, 1, 2, 3, 4, 5, 6, 7, 8] := rfl
  have hcase :
      hostsSeq (RoundRobin [b0, b1, b2]) 9 s
          = [b1, b2, b0, b1, b2, b0, b1, b2, b0] ∨
      hostsSeq (RoundRobin [b0, b1, b2]) 9 s
          = [b2, b0, b1, b2, b0, b1, b2, b0, b1] ∨
      hostsSeq (RoundRobin [b0, b1, b2]) 9 s
          = [b0, b1, b2, b0, b1, b2, b0, b1, b2] := by
    clear hw hbs hstep hhost3
    obtain hm | hm | hm : s.robin % 3 = 0 ∨ s.robin % 3 = 1 ∨ s.robin % 3 = 2 := by
      omega
    · left
      rw [hmap0, hr]
      have e0 : (s.robin + 0 + 1) % 3 = 1 := by omega
      have e1 : (s.robin + 1 + 1) % 3 = 2 := by omega
      have e2 : (s.robin + 2 + 1) % 3 = 0 := by omega
      have e3 : (s.robin + 3 + 1) % 3 = 1 := by omega
      have e4 : (s.robin + 4 + 1) % 3 = 2 := by omega
      have e5 : (s.robin + 5 + 1) % 3 = 0 := by omega
      have e6 : (s.robin + 6 + 1) % 3 = 1 := by omega
      have e7 : (s.robin + 7 + 1) % 3 = 2 := by omega
      have e8 : (s.robin + 8 + 1) % 3 = 0 := by omega
      simp only [List.map_cons, List.map_nil, e0, e1, e2, e3, e4, e5, e6, e7, e8]
      rfl
    · right; left
      rw [hmap0, hr]
      have e0 : (s.robin + 0 + 1) % 3 = 2 := by omega
      have e1 : (s.robin + 1 + 1) % 3 = 0 := by omega
      have e2 : (s.robin + 2 + 1) % 3 = 1 := by omega
      have e3 : (s.robin + 3 + 1) % 3 = 2 := by omega
      have e4 : (s.robin + 4 + 1) % 3 = 0 := by omega
      have e5 : (s.robin + 5 + 1) % 3 = 1 := by omega
      have e6 : (s.robin + 6 + 1) % 3 = 2 := by omega
      have e7 : (s.robin + 7 + 1) % 3 = 0 := by omega
      have e8 : (s.robin + 8 + 1) % 3 = 1 := by omega
      simp only [List.map_cons, List.map_nil, e0, e1, e2, e3, e4, e5, e6, e7, e8]
      rfl
    · right; right
      rw [hmap0, hr]
      have e0 : (s.robin + 0 + 1) % 3 = 0 := by omega
      have e1 : (s.robin + 1 + 1) % 3 = 1 := by omega
      have e2 : (s.robin + 2 + 1) % 3 = 2 := by omega
      have e3 : (s.robin + 3 + 1) % 3 = 0 := by omega
      have e4 : (s.robin + 4 + 1) % 3 = 1 := by omega
      have e5 : (s.robin + 5 + 1) % 3 = 2 := by omega
      have e6 : (s.robin + 6 + 1) % 3 = 0 := by omega
      have e7 : (s.robin + 7 + 1) % 3 = 1 := by omega
      have e8 : (s.robin + 8 + 1) % 3 = 2 := by omega
      simp only [List.map_cons, List.map_nil, e0, e1, e2, e3, e4, e5, e6, e7, e8]
      rfl
  refine ⟨⟨hstep.1, hhost3⟩, hmap0, ?_, ?_⟩
  · rcases hcase with hl | hl | hl <;>
      (intro i hi; rw [hl]; interval_cases i <;> rfl)
  · rcases hcase with hl | hl | hl <;>
      (rw [hl];
       simp [List.count_cons, h01, h02, h12, Ne.symm h01, Ne.symm h02, Ne.symm h12])

/-- Witness for C8 (amended) at distinct backends a, b, c and starting
counter 0: each backend is selected exactly 3 times over 9 invocations. -/
theorem RoundRobin_cycles_witness :
    (hostsSeq (RoundRobin ["a", "b", "c"]) 9 s0).count "a" = 3 ∧
    (hostsSeq (RoundRobin ["a", "b", "c"]) 9 s0).count "b" = 3 ∧
    (hostsSeq (RoundRobin ["a", "b", "c"]) 9 s0).count "c" = 3 :=
  (RoundRobin_cycles "a" "b" "c" s0 (by decide) (by decide) (by decide)
    (by decide)).2.2.2

/-- C8 counterexample to the claim as stated: starting the counter at
`2 ^ 64 - 5`, the `uint64` wraparound repeats a residue inside the
9-invocation window, so backend "c" is selected only twice (and "a" four
times), and the sequence is not cyclic with period 3. -/
theorem RoundRobin_cycles_cex :
    List.count "c" (hostsSeq (RoundRobin ["a", "b", "c"]) 9
        { s0 with robin := 2 ^ 64 - 5 }) = 2 ∧
    (hostsSeq (RoundRobin ["a", "b", "c"]) 9 { s0 with robin := 2 ^ 64 - 5 }).getD 4 ""
      ≠ (hostsSeq (RoundRobin ["a", "b", "c"]) 9 { s0 with robin := 2 ^ 64 - 5 }).getD 1 "" := by
  exact ⟨by decide, by decide⟩

end GoDecorator
